import Mathlib

/-!
Shallow embedding of `src/device.cc` (frida-node Device bindings): the
command surface (`Device::Spawn`, `Device::Resume`, `Device::Kill`,
`Device::Attach`, `Device::GetFrontmostApplication`,
`Device::EnumerateApplications`, `Device::EnumerateProcesses`), the
per-command operation result marshallers, the device `type` getter, the
wrapper's reference-count behaviour, and a glib-style heap model of the
argument buffers `Device::Spawn` copies and frees.
-/

namespace Frida

/-- A v8 JavaScript value, as far as the device bindings inspect one:
`IsNumber`, `IsString`, `IsArray`, `ToInteger` and string contents. JS numbers
are modelled as rationals (every finite double is rational). -/
inductive JSValue where
  | num (value : ℚ)
  | str (s : String)
  | arr (elems : List JSValue)
  | boolean (b : Bool)
  | nullV
  | undef
  deriving Repr

/-- `v8::Value::IsString()`. -/
def JSValue.isString : JSValue → Bool
  | .str _ => true
  | _ => false

/-- ECMAScript ToInteger as v8's `Value::ToInteger()->Value()` applies it to a
finite number: truncation toward zero. -/
def toInteger (q : ℚ) : ℤ :=
  if 0 ≤ q then ⌊q⌋ else -⌊-q⌋

/-- C++ `static_cast<guint>` of the 64-bit integer v8 returned: reduction
modulo 2^32 (guint is 32 bits). -/
def guintOfInt (i : ℤ) : ℕ :=
  (i % (2 ^ 32 : ℤ)).toNat

/-- The validation message thrown by `Device::Resume` / `Kill` / `Attach`. -/
def errPidMsg : String := "Bad argument, expected pid"

/-- The validation message thrown by `Device::Spawn`. -/
def errArgvMsg : String := "Bad argument, expected argv as an array of strings"

/-- The operation `Device::Resume` creates: carries the captured pid. -/
structure ResumeOperation where
  pid : ℕ
  deriving Repr, DecidableEq

/-- The operation `Device::Kill` creates. -/
structure KillOperation where
  pid : ℕ
  deriving Repr, DecidableEq

/-- The operation `Device::Attach` creates. -/
structure AttachOperation where
  pid : ℕ
  deriving Repr, DecidableEq

/-- `Device::Resume` (src/device.cc:373-394): missing or non-number argument
throws `errPidMsg`; otherwise the argument is coerced with `ToInteger`, a
non-positive result throws `errPidMsg`, and a positive one is cast to `guint`
and captured in a `ResumeOperation`. `Except.error` is the synchronous
`Nan::ThrowTypeError` path, taken before any operation exists. -/
def Device.Resume (info : List JSValue) : Except String ResumeOperation :=
  match info.head? with
  | some (.num q) =>
    let pid := toInteger q
    if pid ≤ 0 then .error errPidMsg
    else .ok ⟨guintOfInt pid⟩
  | _ => .error errPidMsg

/-- `Device::Kill` (src/device.cc:416-437): same validation as `Resume`. -/
def Device.Kill (info : List JSValue) : Except String KillOperation :=
  match info.head? with
  | some (.num q) =>
    let pid := toInteger q
    if pid ≤ 0 then .error errPidMsg
    else .ok ⟨guintOfInt pid⟩
  | _ => .error errPidMsg

/-- `Device::Attach` (src/device.cc:462-483): same validation as `Resume`. -/
def Device.Attach (info : List JSValue) : Except String AttachOperation :=
  match info.head? with
  | some (.num q) =>
    let pid := toInteger q
    if pid ≤ 0 then .error errPidMsg
    else .ok ⟨guintOfInt pid⟩
  | _ => .error errPidMsg

/-- `FRIDA_DEVICE_TYPE_LOCAL` (first value of the C enum). -/
def FRIDA_DEVICE_TYPE_LOCAL : ℕ := 0

/-- `FRIDA_DEVICE_TYPE_TETHER`. -/
def FRIDA_DEVICE_TYPE_TETHER : ℕ := 1

/-- `FRIDA_DEVICE_TYPE_REMOTE`. -/
def FRIDA_DEVICE_TYPE_REMOTE : ℕ := 2

/-- `Device::GetType` (src/device.cc:136-158): switch on
`frida_device_get_dtype`; the three known enum values map to fixed string
tags, and the `default` arm is `g_assert_not_reached()` — a fatal abort,
modelled as `none` (no value is ever returned there). -/
def Device.GetType (dtype : ℕ) : Option String :=
  if dtype = FRIDA_DEVICE_TYPE_LOCAL then some "local"
  else if dtype = FRIDA_DEVICE_TYPE_TETHER then some "tether"
  else if dtype = FRIDA_DEVICE_TYPE_REMOTE then some "remote"
  else none

/-- A host-visible (v8) value as the marshallers build it. Native handles are
opaque pointers, modelled as naturals; a secondary wrapper (`Application::New`,
`Process::New`, `Session::New`) is modelled by the constructor tag plus the
handle it was built from. -/
inductive HostValue where
  | nullH
  | undefinedH
  | uintH (n : ℕ)
  | strH (s : String)
  | applicationWrapper (handle : ℕ)
  | processWrapper (handle : ℕ)
  | sessionWrapper (handle : ℕ)
  | arrayH (elems : List HostValue)
  deriving Repr

/-- A promise: pending, fulfilled once, or rejected once. -/
inductive FutureState where
  | pending
  | fulfilled (v : HostValue)
  | rejected (msg : String)
  deriving Repr

/-- Modelled from the spec: the `Operation` base class (`operation.h`, not
among the repository files shown) settles each operation's promise exactly
once on the event loop — rejecting with the native error's message when the
finish call set an error, and fulfilling with the marshalled `Result` value
when it did not. -/
def settleFuture (err : Option String) (result : HostValue) : FutureState :=
  match err with
  | some msg => .rejected msg
  | none => .fulfilled result

/-- Reference-count and wrapping events the marshallers emit, in program
order: `wrapApp h` / `wrapProc h` is `Application::New(h, …)` /
`Process::New(h, …)`, `unrefH h` is `g_object_unref(h)` on a list element or
record handle, `unrefList` is the final `g_object_unref` of the list
container. -/
inductive MEvent where
  | wrapApp (h : ℕ)
  | wrapProc (h : ℕ)
  | unrefH (h : ℕ)
  | unrefList
  deriving Repr, DecidableEq

/-- `GetFrontmostApplicationOperation::Result` (src/device.cc:171-179): a
null handle yields `Nan::Null()`; otherwise the handle is wrapped and then
released. -/
def GetFrontmostApplicationOperation.Result (application : Option ℕ) :
    HostValue × List MEvent :=
  match application with
  | some h => (.applicationWrapper h, [.wrapApp h, .unrefH h])
  | none => (.nullH, [])

/-- The loop body of `EnumerateApplicationsOperation::Result`
(src/device.cc:211-216): for each native list index in order, get the
element handle, wrap it, store it in the array, release the handle. -/
def enumAppsBuild : List ℕ → List HostValue × List MEvent
  | [] => ([], [])
  | h :: rest =>
    let r := enumAppsBuild rest
    (.applicationWrapper h :: r.1, .wrapApp h :: .unrefH h :: r.2)

/-- `EnumerateApplicationsOperation::Result` (src/device.cc:208-221): build
the array by the loop, then release the list container, then return the
array. -/
def EnumerateApplicationsOperation.Result (applications : List ℕ) :
    HostValue × List MEvent :=
  let b := enumAppsBuild applications
  (.arrayH b.1, b.2 ++ [.unrefList])

/-- The loop body of `EnumerateProcessesOperation::Result`
(src/device.cc:253-258). -/
def enumProcsBuild : List ℕ → List HostValue × List MEvent
  | [] => ([], [])
  | h :: rest =>
    let r := enumProcsBuild rest
    (.processWrapper h :: r.1, .wrapProc h :: .unrefH h :: r.2)

/-- `EnumerateProcessesOperation::Result` (src/device.cc:250-263). -/
def EnumerateProcessesOperation.Result (processes : List ℕ) :
    HostValue × List MEvent :=
  let b := enumProcsBuild processes
  (.arrayH b.1, b.2 ++ [.unrefList])

/-- `ResumeOperation::Result` (src/device.cc:366-368): `Nan::Undefined()`. -/
def ResumeOperation.Result (_ : ResumeOperation) : HostValue := .undefinedH

/-- `KillOperation::Result` (src/device.cc:409-411): `Nan::Undefined()`. -/
def KillOperation.Result (_ : KillOperation) : HostValue := .undefinedH

/-- `SpawnOperation::End` (src/device.cc:300-302): stores the `guint` pid
the native finish call returned. -/
def SpawnOperation.End (nativePid : ℕ) : ℕ := nativePid

/-- `SpawnOperation::Result` (src/device.cc:304-306):
`Nan::New<v8::Uint32>(pid_)`. -/
def SpawnOperation.Result (pid : ℕ) : HostValue := .uintH pid

/-- Reference-count events on the device's own native handle. -/
inductive RefEvent where
  | refE (h : ℕ)
  | unrefE (h : ℕ)
  deriving Repr, DecidableEq

/-- `Device::Device` (src/device.cc:30-33): the constructor stores the handle
(in the `GLibObject` base) and performs one `g_object_ref(handle_)`. -/
def Device.ctorEvents (h : ℕ) : List RefEvent := [.refE h]

/-- `Device::~Device` (src/device.cc:35-38): the destructor performs one
`frida_unref(handle_)` (an unref scheduled on the frida thread). -/
def Device.dtorEvents (h : ℕ) : List RefEvent := [.unrefE h]

/-- The wrapper's whole lifetime: construction events then destruction
events. -/
def Device.lifetimeEvents (h : ℕ) : List RefEvent :=
  Device.ctorEvents h ++ Device.dtorEvents h

/-- Net change a trace of events contributes to handle `h`'s reference
count. -/
def refDelta (h : ℕ) (tr : List RefEvent) : ℤ :=
  (tr.count (.refE h) : ℤ) - (tr.count (.unrefE h) : ℤ)

/-- A glib heap cell: a NUL-terminated string buffer (`gchar*`) or a
NULL-terminated pointer vector (`gchar**`). -/
inductive HCell where
  | strC (s : String)
  | vecC (ptrs : List (Option ℕ))
  deriving Repr, DecidableEq

/-- The allocator state: a bump counter (fresh addresses are never reused)
and the live cells. -/
@[ext]
structure AllocST where
  next : ℕ
  mem : List (ℕ × HCell)
  deriving Repr, DecidableEq

/-- Allocation and deallocation events, in program order. -/
inductive AEvent where
  | allocE (a : ℕ)
  | freeE (a : ℕ)
  deriving Repr, DecidableEq

/-- Allocate a fresh cell (`g_new0` / `g_strdup`): returns the new state and
the cell's address. -/
def AllocST.alloc (st : AllocST) (c : HCell) : AllocST × ℕ :=
  (⟨st.next + 1, (st.next, c) :: st.mem⟩, st.next)

/-- Dereference an address. -/
def AllocST.lookup (st : AllocST) (a : ℕ) : Option HCell :=
  (st.mem.find? (fun p => p.1 = a)).map Prod.snd

/-- `g_free` of one cell. -/
def AllocST.freeCell (st : AllocST) (a : ℕ) : AllocST :=
  ⟨st.next, st.mem.filter (fun p => p.1 ≠ a)⟩

/-- Overwrite the cell at an address (used for the final write of the argv
pointers into the `g_new0`-allocated vector). -/
def AllocST.setCell (st : AllocST) (a : ℕ) (c : HCell) : AllocST :=
  ⟨st.next, st.mem.map (fun p => if p.1 = a then (a, c) else p)⟩

/-- Free several cells in order. -/
def AllocST.freeMany (st : AllocST) (as : List ℕ) : AllocST :=
  as.foldl AllocST.freeCell st

/-- Well-formed allocator state: every live address is below the bump counter
and addresses are not duplicated. -/
def AllocST.WF (st : AllocST) : Prop :=
  (∀ p ∈ st.mem, p.1 < st.next) ∧ (st.mem.map Prod.fst).Nodup

/-- The addresses `(n, s₀), (n+1, s₁), …` that a run of sequential `g_strdup`
calls starting at bump counter `n` pairs with the strings it copies. -/
def addrPairs (n : ℕ) : List String → List (ℕ × String)
  | [] => []
  | s :: rest => (n, s) :: addrPairs (n + 1) rest

/-- The heap cells those copies occupy. -/
def cellsOf (n : ℕ) (ss : List String) : List (ℕ × HCell) :=
  (addrPairs n ss).map (fun p => (p.1, HCell.strC p.2))

/-- The strings of a JS array when every element is a string; `none` when
some element is not. -/
def jsStrings : List JSValue → Option (List String)
  | [] => some []
  | .str s :: rest => (jsStrings rest).map (fun ss => s :: ss)
  | _ :: _ => none

/-- The validation loop of `Device::Spawn` (src/device.cc:326-336), running
over the remaining JS array elements with the argv vector at `vecAddr` and
the `(address, contents)` pairs copied so far. A string element is copied
with `g_strdup`; any other element triggers `g_strfreev(argv)` — which frees
exactly the copied strings (the vector's non-NULL prefix: the `g_new0` tail
is still NULL) and then the vector itself — and reports failure (`none`). On
success the copied pairs are returned so the caller can write them into the
vector. -/
def spawnCopyLoop (st : AllocST) (vecAddr : ℕ) (copied : List (ℕ × String)) :
    List JSValue → AllocST × List AEvent × Option (List (ℕ × String))
  | [] => (st, [], some copied)
  | .str s :: rest =>
    let p := st.alloc (.strC s)
    let r := spawnCopyLoop p.1 vecAddr (copied ++ [(p.2, s)]) rest
    (r.1, .allocE p.2 :: r.2.1, r.2.2)
  | _ :: _ =>
    let freed := copied.map Prod.fst ++ [vecAddr]
    (st.freeMany freed, freed.map AEvent.freeE, none)

/-- Sequential `g_strdup` of a list of strings (the strings `g_get_environ`
copies), returning the events and the addresses in order. -/
def allocStrs (st : AllocST) : List String → AllocST × List AEvent × List ℕ
  | [] => (st, [], [])
  | s :: rest =>
    let p := st.alloc (.strC s)
    let r := allocStrs p.1 rest
    (r.1, .allocE p.2 :: r.2.1, p.2 :: r.2.2)

/-- `g_get_environ()`: an independent snapshot of the process environment —
one fresh string cell per entry plus a fresh NULL-terminated vector. -/
def gGetEnviron (st : AllocST) (env : List String) : AllocST × List AEvent × ℕ :=
  let r := allocStrs st env
  let v := r.1.alloc (.vecC (r.2.2.map some ++ [none]))
  (v.1, r.2.1 ++ [.allocE v.2], v.2)

/-- The operation `Device::Spawn` constructs (src/device.cc:283-298): it owns
`path_` (`gchar*`, NULL when argv was empty since `g_strdup(NULL)` is NULL),
`argv_` and `envp_` (`gchar**` vectors). -/
structure SpawnOperationH where
  path : Option ℕ
  argv : ℕ
  envp : ℕ
  deriving Repr, DecidableEq

/-- What a call to `Device::Spawn` does: throw synchronously (no operation
exists) or schedule a constructed operation. -/
inductive SpawnOutcome where
  | thrown (msg : String)
  | scheduled (op : SpawnOperationH)
  deriving Repr, DecidableEq

/-- `Device::Spawn` (src/device.cc:314-351). `argv` stays NULL unless the
first argument is an array; for an array, a zeroed vector of length+1 is
allocated and the copy loop runs; if the loop failed (`argv == NULL`),
`Nan::ThrowTypeError(errArgvMsg)` — otherwise the copied pointers stand in
the vector, `envp = g_get_environ()`, `path = g_strdup(argv[0])` (NULL for an
empty argv), and a `SpawnOperation` owning all three is scheduled. -/
def Device.Spawn (info : List JSValue) (env : List String) (st : AllocST) :
    AllocST × List AEvent × SpawnOutcome :=
  match info.head? with
  | some (.arr elems) =>
    let v := st.alloc (.vecC (List.replicate (elems.length + 1) none))
    let r := spawnCopyLoop v.1 v.2 [] elems
    match r.2.2 with
    | none => (r.1, .allocE v.2 :: r.2.1, .thrown errArgvMsg)
    | some copies =>
      let st2 := r.1.setCell v.2 (.vecC ((copies.map Prod.fst).map some ++ [none]))
      let e := gGetEnviron st2 env
      match copies.head? with
      | some c =>
        let p := e.1.alloc (.strC c.2)
        (p.1, .allocE v.2 :: r.2.1 ++ e.2.1 ++ [.allocE p.2],
          .scheduled ⟨some p.2, v.2, e.2.2⟩)
      | none =>
        (e.1, .allocE v.2 :: r.2.1 ++ e.2.1, .scheduled ⟨none, v.2, e.2.2⟩)
  | _ => (st, [], .thrown errArgvMsg)

/-- Read a string cell. -/
def readStr (st : AllocST) (a : ℕ) : Option String :=
  match st.lookup a with
  | some (.strC s) => some s
  | _ => none

/-- The non-NULL prefix of a pointer vector — the pointers `g_strv_length`
counts and `g_strfreev` frees. -/
def strvPtrs : List (Option ℕ) → List ℕ
  | [] => []
  | none :: _ => []
  | some a :: rest => a :: strvPtrs rest

/-- Read a NULL-terminated string vector: the vector cell's non-NULL prefix,
each pointer dereferenced. -/
def readStrv (st : AllocST) (a : ℕ) : Option (List String) :=
  match st.lookup a with
  | some (.vecC ptrs) => (strvPtrs ptrs).mapM (readStr st)
  | _ => none

/-- The arguments `SpawnOperation::Begin` (src/device.cc:295-298) passes to
`frida_device_spawn`: the dereferenced path, argv strings and envp strings
(`g_strv_length` is the length of each dereferenced vector). -/
def SpawnOperationH.beginArgs (op : SpawnOperationH) (st : AllocST) :
    Option String × Option (List String) × Option (List String) :=
  ((op.path.bind (readStr st)), readStrv st op.argv, readStrv st op.envp)

/-- The string cells the operation owns in state `st`: the path cell and the
cells its two vectors point at. -/
def SpawnOperationH.strCells (op : SpawnOperationH) (st : AllocST) : List ℕ :=
  op.path.toList ++
    (match st.lookup op.argv with
     | some (.vecC ptrs) => strvPtrs ptrs
     | _ => []) ++
    (match st.lookup op.envp with
     | some (.vecC ptrs) => strvPtrs ptrs
     | _ => [])

/-- Every cell the operation owns: the two vectors and all string cells. -/
def SpawnOperationH.cells (op : SpawnOperationH) (st : AllocST) : List ℕ :=
  op.argv :: op.envp :: op.strCells st

/-- `g_strfreev`: free each string of the vector's non-NULL prefix, then the
vector itself. -/
def gStrfreev (st : AllocST) (a : ℕ) : AllocST × List AEvent :=
  match st.lookup a with
  | some (.vecC ptrs) =>
    let strs := strvPtrs ptrs
    ((st.freeMany strs).freeCell a, strs.map AEvent.freeE ++ [.freeE a])
  | _ => (st, [])

/-- `g_free` of a `gchar*` that may be NULL (`g_free(NULL)` is a no-op). -/
def gFreeOpt (st : AllocST) (a : Option ℕ) : AllocST × List AEvent :=
  match a with
  | some addr => (st.freeCell addr, [.freeE addr])
  | none => (st, [])

/-- `SpawnOperation::~SpawnOperation` (src/device.cc:289-293):
`g_strfreev(envp_); g_strfreev(argv_); g_free(path_)`. -/
def SpawnOperationH.dtor (op : SpawnOperationH) (st : AllocST) :
    AllocST × List AEvent :=
  let e := gStrfreev st op.envp
  let a := gStrfreev e.1 op.argv
  let p := gFreeOpt a.1 op.path
  (p.1, e.2 ++ a.2 ++ p.2)

/-- First-match association lookup, the recursion `AllocST.lookup` follows. -/
def listFind (L : List (ℕ × HCell)) (a : ℕ) : Option HCell :=
  match L with
  | [] => none
  | p :: rest => if p.1 = a then some p.2 else listFind rest a

/-! ## Theorems -/

lemma toInteger_nonpos {q : ℚ} (h : q ≤ 0) : toInteger q ≤ 0 := by
  unfold toInteger
  split
  · next h0 =>
    have hq : q = 0 := le_antisymm h h0
    simp [hq]
  · next h0 =>
    have h1 : (0 : ℚ) ≤ -q := by linarith
    have h2 : (0 : ℤ) ≤ ⌊-q⌋ := Int.floor_nonneg.mpr h1
    omega

/-- C2: for `resume`, `kill` and `attach`, a missing argument, a non-number
argument, or a numeric argument whose value is ≤ 0 makes the call fail
synchronously (`Nan::ThrowTypeError`, modelled as `Except.error`, returned
before any operation value is constructed) with the message
"Bad argument, expected pid"; no operation — hence no future — exists on
that path. -/
theorem pid_validation_synchronous (info : List JSValue)
    (h : info.head? = none ∨ (∀ q : ℚ, info.head? ≠ some (.num q)) ∨
      ∃ q : ℚ, info.head? = some (.num q) ∧ q ≤ 0) :
    Device.Resume info = .error errPidMsg ∧
    Device.Kill info = .error errPidMsg ∧
    Device.Attach info = .error errPidMsg := by
  rcases h with h | h | ⟨q, hq, hle⟩
  · simp [Device.Resume, Device.Kill, Device.Attach, h]
  · rcases hd : info.head? with _ | v
    · simp [Device.Resume, Device.Kill, Device.Attach, hd]
    · cases v <;> simp_all [Device.Resume, Device.Kill, Device.Attach]
  · simp [Device.Resume, Device.Kill, Device.Attach, hq, toInteger_nonpos hle]

/-- Witness for C2: `resume()`, `kill()`, `attach()` with no argument all
throw the pid message. -/
theorem pid_validation_synchronous_check :
    Device.Resume [] = .error errPidMsg ∧
    Device.Kill [] = .error errPidMsg ∧
    Device.Attach [] = .error errPidMsg :=
  pid_validation_synchronous [] (Or.inl rfl)

/-- C9: the pid argument is coerced with `ToInteger` before the positivity
check, so any number whose truncation is positive is accepted and the
truncated value, cast to `guint`, is captured in the operation. -/
theorem pid_truncation_accepted (q : ℚ) (h : 0 < toInteger q) :
    Device.Resume [.num q] = .ok ⟨guintOfInt (toInteger q)⟩ ∧
    Device.Kill [.num q] = .ok ⟨guintOfInt (toInteger q)⟩ ∧
    Device.Attach [.num q] = .ok ⟨guintOfInt (toInteger q)⟩ := by
  have h' : ¬ toInteger q ≤ 0 := by omega
  simp [Device.Resume, Device.Kill, Device.Attach, h']

/-- Witness for C9: `resume(1.5)` passes validation; 1.5 truncates to 1 and
the operation captures pid 1. -/
theorem pid_truncation_accepted_check :
    0 < toInteger (3 / 2 : ℚ) ∧ toInteger (3 / 2 : ℚ) = 1 ∧
    Device.Resume [.num (3 / 2 : ℚ)] = .ok ⟨1⟩ ∧
    Device.Attach [.num (3 / 2 : ℚ)] = .ok ⟨1⟩ := by
  have h1 : toInteger (3 / 2 : ℚ) = 1 := by
    unfold toInteger
    rw [if_pos (by norm_num), Int.floor_eq_iff]
    norm_num
  have h2 : (0 : ℤ) < toInteger (3 / 2 : ℚ) := by omega
  have h3 := pid_truncation_accepted (3 / 2) h2
  have hg : guintOfInt (toInteger (3 / 2 : ℚ)) = 1 := by
    rw [h1]; decide
  refine ⟨h2, h1, ?_, ?_⟩
  · have := h3.1; rwa [hg] at this
  · have := h3.2.2; rwa [hg] at this

/-- C6: the device `type` getter maps exactly the three known enum values to
the tags "local", "tether", "remote"; every returned value is one of those
three tags, and any other enum value reaches `g_assert_not_reached()` — the
fatal-abort arm (`none`), which returns no value at all. -/
theorem device_type_tags (d : ℕ) :
    (∀ s, Device.GetType d = some s →
      s = "local" ∨ s = "tether" ∨ s = "remote") ∧
    (Device.GetType d = none ↔
      d ≠ FRIDA_DEVICE_TYPE_LOCAL ∧ d ≠ FRIDA_DEVICE_TYPE_TETHER ∧
        d ≠ FRIDA_DEVICE_TYPE_REMOTE) ∧
    Device.GetType FRIDA_DEVICE_TYPE_LOCAL = some "local" ∧
    Device.GetType FRIDA_DEVICE_TYPE_TETHER = some "tether" ∧
    Device.GetType FRIDA_DEVICE_TYPE_REMOTE = some "remote" := by
  refine ⟨?_, ?_, by decide, by decide, by decide⟩
  · intro s hs
    unfold Device.GetType at hs
    split_ifs at hs <;> simp_all
  · unfold Device.GetType FRIDA_DEVICE_TYPE_LOCAL FRIDA_DEVICE_TYPE_TETHER
      FRIDA_DEVICE_TYPE_REMOTE
    split_ifs <;> simp_all

/-- C3: a completed `getFrontmostApplication` with no native error fulfils
the future with `null` when the native finish call returned a null handle,
and with an `Application` wrapper built from that handle otherwise; the
no-application case never rejects the future. -/
theorem frontmost_application_null_or_wrapper (app : Option ℕ) :
    (app = none →
      settleFuture none (GetFrontmostApplicationOperation.Result app).1 =
        .fulfilled .nullH) ∧
    (∀ h, app = some h →
      settleFuture none (GetFrontmostApplicationOperation.Result app).1 =
        .fulfilled (.applicationWrapper h)) ∧
    ∀ msg, settleFuture none (GetFrontmostApplicationOperation.Result app).1 ≠
      .rejected msg := by
  cases app <;>
    simp [settleFuture, GetFrontmostApplicationOperation.Result]

lemma enumAppsBuild_eq (hs : List ℕ) :
    enumAppsBuild hs =
      (hs.map HostValue.applicationWrapper,
       hs.flatMap (fun h => [MEvent.wrapApp h, MEvent.unrefH h])) := by
  induction hs with
  | nil => rfl
  | cons h t ih => simp [enumAppsBuild, ih]

lemma enumProcsBuild_eq (hs : List ℕ) :
    enumProcsBuild hs =
      (hs.map HostValue.processWrapper,
       hs.flatMap (fun h => [MEvent.wrapProc h, MEvent.unrefH h])) := by
  induction hs with
  | nil => rfl
  | cons h t ih => simp [enumProcsBuild, ih]

/-- C4: a completed enumerate operation with no native error fulfils its
future with an array of the same length as the native list whose `i`-th
element wraps the native list's `i`-th handle (order preserved); the event
trace is, per element in order, a wrap immediately followed by that
element's unref, and the single list-container unref comes after the whole
array is built (last in the trace). -/
theorem enumerate_preserves_order (apps procs : List ℕ) :
    (EnumerateApplicationsOperation.Result apps).1 =
      .arrayH (apps.map .applicationWrapper) ∧
    (apps.map HostValue.applicationWrapper).length = apps.length ∧
    (∀ i : ℕ, (apps.map HostValue.applicationWrapper)[i]? =
      apps[i]?.map HostValue.applicationWrapper) ∧
    (EnumerateApplicationsOperation.Result apps).2 =
      (apps.flatMap fun h => [MEvent.wrapApp h, MEvent.unrefH h]) ++
        [MEvent.unrefList] ∧
    settleFuture none (EnumerateApplicationsOperation.Result apps).1 =
      .fulfilled (.arrayH (apps.map .applicationWrapper)) ∧
    (EnumerateProcessesOperation.Result procs).1 =
      .arrayH (procs.map .processWrapper) ∧
    (procs.map HostValue.processWrapper).length = procs.length ∧
    (∀ i : ℕ, (procs.map HostValue.processWrapper)[i]? =
      procs[i]?.map HostValue.processWrapper) ∧
    (EnumerateProcessesOperation.Result procs).2 =
      (procs.flatMap fun h => [MEvent.wrapProc h, MEvent.unrefH h]) ++
        [MEvent.unrefList] ∧
    settleFuture none (EnumerateProcessesOperation.Result procs).1 =
      .fulfilled (.arrayH (procs.map .processWrapper)) := by
  refine ⟨?_, by simp, ?_, ?_, ?_, ?_, by simp, ?_, ?_, ?_⟩ <;>
    simp [EnumerateApplicationsOperation.Result,
      EnumerateProcessesOperation.Result, enumAppsBuild_eq, enumProcsBuild_eq,
      settleFuture]

/-- C5: over the wrapper's lifetime, construction contributes exactly one
acquire (`g_object_ref`) and no release, destruction exactly one release
(`frida_unref`) and no acquire, so the wrapper's net contribution to the
handle's reference count is zero and the release happens exactly once, at
destruction and never before. -/
theorem device_wrapper_refcount (h : ℕ) :
    (Device.ctorEvents h).count (.refE h) = 1 ∧
    (Device.ctorEvents h).count (.unrefE h) = 0 ∧
    (Device.dtorEvents h).count (.unrefE h) = 1 ∧
    (Device.dtorEvents h).count (.refE h) = 0 ∧
    refDelta h (Device.lifetimeEvents h) = 0 := by
  simp [Device.ctorEvents, Device.dtorEvents, Device.lifetimeEvents, refDelta]

/-- C7: with no native error, a resume or kill operation fulfils its future
with the host "no value" (`Nan::Undefined()`), and a spawn operation fulfils
its future with the pid the native finish call returned, as a host unsigned
integer (`Nan::New<v8::Uint32>`). -/
theorem completed_results_fulfil (pid : ℕ) (opR : ResumeOperation)
    (opK : KillOperation) :
    settleFuture none (ResumeOperation.Result opR) = .fulfilled .undefinedH ∧
    settleFuture none (KillOperation.Result opK) = .fulfilled .undefinedH ∧
    settleFuture none (SpawnOperation.Result (SpawnOperation.End pid)) =
      .fulfilled (.uintH pid) :=
  ⟨rfl, rfl, rfl⟩

/-- Counterexample to C1 as stated: `spawn([])` — an empty array — does NOT
fail synchronously; validation passes (the zeroed one-slot vector is
non-NULL) and an operation with an empty argv and a NULL path is scheduled. -/
theorem spawn_empty_array_scheduled :
    (Device.Spawn [JSValue.arr []] [] ⟨0, []⟩).2.2 =
      .scheduled ⟨none, 0, 1⟩ ∧
    (Device.Spawn [JSValue.arr []] [] ⟨0, []⟩).2.2 ≠ .thrown errArgvMsg := by
  refine ⟨rfl, by decide⟩

/-! ### Heap lemmas -/

lemma lookup_eq_listFind (st : AllocST) (a : ℕ) :
    st.lookup a = listFind st.mem a := by
  unfold AllocST.lookup
  induction st.mem with
  | nil => rfl
  | cons p rest ih =>
    by_cases h : p.1 = a
    · simp [listFind, List.find?_cons, h]
    · simp only [listFind, List.find?_cons]
      rw [if_neg h]
      simpa [h] using ih

lemma listFind_append_of_none {L1 : List (ℕ × HCell)} (L2 : List (ℕ × HCell))
    {a : ℕ} (h : ∀ p ∈ L1, p.1 ≠ a) :
    listFind (L1 ++ L2) a = listFind L2 a := by
  induction L1 with
  | nil => rfl
  | cons p rest ih =>
    have hp : p.1 ≠ a := h p (by simp)
    simp only [List.cons_append, listFind, if_neg hp]
    exact ih fun q hq => h q (by simp [hq])

lemma listFind_cons_self (a : ℕ) (c : HCell) (L : List (ℕ × HCell)) :
    listFind ((a, c) :: L) a = some c := by
  simp [listFind]

lemma listFind_of_mem_nodup {L : List (ℕ × HCell)} {a : ℕ} {c : HCell}
    (hnd : (L.map Prod.fst).Nodup) (hmem : (a, c) ∈ L) :
    listFind L a = some c := by
  induction L with
  | nil => simp at hmem
  | cons p rest ih =>
    rcases List.mem_cons.mp hmem with h | h
    · simp [listFind, ← h]
    · have hp : p.1 ≠ a := by
        intro hpa
        have : a ∈ rest.map Prod.fst := by
          exact List.mem_map.mpr ⟨(a, c), h, rfl⟩
        simp only [List.map_cons, List.nodup_cons] at hnd
        exact hnd.1 (hpa ▸ this)
      simp only [listFind, if_neg hp]
      exact ih (by simp only [List.map_cons, List.nodup_cons] at hnd; exact hnd.2) h

lemma listFind_filter (L : List (ℕ × HCell)) (q : ℕ × HCell → Bool) (a : ℕ)
    (h : ∀ c, q (a, c) = true) :
    listFind (L.filter q) a = listFind L a := by
  induction L with
  | nil => rfl
  | cons p rest ih =>
    by_cases hp : p.1 = a
    · have : q p = true := by
        obtain ⟨p1, p2⟩ := p
        simp only at hp
        subst hp
        exact h p2
      simp [List.filter_cons, this, listFind, hp]
    · by_cases hq : q p = true
      · simp [List.filter_cons, hq, listFind, hp, ih]
      · simp only [List.filter_cons, Bool.not_eq_true] at hq ⊢
        rw [if_neg (by simp [hq])]
        rw [ih, listFind, if_neg hp]

lemma freeCell_mem (st : AllocST) (a : ℕ) :
    (st.freeCell a).mem = st.mem.filter (fun p => p.1 ≠ a) := rfl

lemma freeCell_next (st : AllocST) (a : ℕ) :
    (st.freeCell a).next = st.next := rfl

lemma freeMany_next (as : List ℕ) (st : AllocST) :
    (st.freeMany as).next = st.next := by
  induction as generalizing st with
  | nil => rfl
  | cons a rest ih => exact (ih (st.freeCell a)).trans rfl

lemma freeMany_mem (as : List ℕ) (st : AllocST) :
    (st.freeMany as).mem = st.mem.filter (fun p => decide (p.1 ∉ as)) := by
  induction as generalizing st with
  | nil =>
    simp [AllocST.freeMany]
  | cons a rest ih =>
    show (AllocST.freeMany (st.freeCell a) rest).mem = _
    rw [ih, freeCell_mem, List.filter_filter]
    congr 1
    funext p
    by_cases h1 : p.1 = a <;> by_cases h2 : p.1 ∈ rest <;>
      simp [h1, h2, List.mem_cons]

lemma freeMany_append (st : AllocST) (as bs : List ℕ) :
    st.freeMany (as ++ bs) = (st.freeMany as).freeMany bs := by
  unfold AllocST.freeMany
  exact List.foldl_append ..

lemma addrPairs_fst (n : ℕ) (ss : List String) :
    (addrPairs n ss).map Prod.fst = List.range' n ss.length := by
  induction ss generalizing n with
  | nil => rfl
  | cons s rest ih => simp [addrPairs, List.range'_succ, ih]

lemma addrPairs_snd (n : ℕ) (ss : List String) :
    (addrPairs n ss).map Prod.snd = ss := by
  induction ss generalizing n with
  | nil => rfl
  | cons s rest ih => simp [addrPairs, ih]

lemma mem_addrPairs_bounds {n : ℕ} {ss : List String} {p : ℕ × String}
    (h : p ∈ addrPairs n ss) : n ≤ p.1 ∧ p.1 < n + ss.length := by
  have : p.1 ∈ (addrPairs n ss).map Prod.fst := List.mem_map.mpr ⟨p, h, rfl⟩
  rw [addrPairs_fst] at this
  have := List.mem_range'_1.mp this
  omega

lemma cellsOf_keys {n : ℕ} {ss : List String} {p : ℕ × HCell}
    (h : p ∈ (cellsOf n ss).reverse) : n ≤ p.1 ∧ p.1 < n + ss.length := by
  rw [List.mem_reverse] at h
  obtain ⟨q, hq, hpq⟩ := List.mem_map.mp h
  have h1 := mem_addrPairs_bounds hq
  have h2 : p.1 = q.1 := by rw [← hpq]
  omega

lemma cellsOf_keys_nodup (n : ℕ) (ss : List String) :
    (((cellsOf n ss).reverse).map Prod.fst).Nodup := by
  rw [List.map_reverse, List.nodup_reverse, cellsOf, List.map_map]
  have : (Prod.fst ∘ fun p : ℕ × String => (p.1, HCell.strC p.2)) =
      (Prod.fst : ℕ × String → ℕ) := rfl
  rw [this, addrPairs_fst]
  exact List.nodup_range' _ _

lemma strvPtrs_some (xs : List ℕ) :
    strvPtrs (xs.map some ++ [none]) = xs := by
  induction xs with
  | nil => rfl
  | cons x rest ih => simp [strvPtrs, ih]

lemma jsStrings_length {elems : List JSValue} {strs : List String}
    (h : jsStrings elems = some strs) : elems.length = strs.length := by
  induction elems generalizing strs with
  | nil =>
    simp [jsStrings] at h
    simp [h]
  | cons x rest ih =>
    cases x <;> simp [jsStrings] at h
    obtain ⟨strs', h1, h2⟩ := h
    simp [← h2, ih h1]

lemma jsStrings_eq_none_split {elems : List JSValue}
    (h : jsStrings elems = none) :
    ∃ pre strs e post, elems = pre ++ e :: post ∧
      jsStrings pre = some strs ∧ e.isString = false := by
  induction elems with
  | nil => simp [jsStrings] at h
  | cons x rest ih =>
    cases x with
    | str s =>
      simp only [jsStrings, Option.map_eq_none'] at h
      obtain ⟨pre, strs, e, post, h1, h2, h3⟩ := ih h
      exact ⟨.str s :: pre, s :: strs, e, post, by simp [h1],
        by simp [jsStrings, h2], h3⟩
    | num q => exact ⟨[], [], .num q, rest, rfl, rfl, rfl⟩
    | arr es => exact ⟨[], [], .arr es, rest, rfl, rfl, rfl⟩
    | boolean b => exact ⟨[], [], .boolean b, rest, rfl, rfl, rfl⟩
    | nullV => exact ⟨[], [], .nullV, rest, rfl, rfl, rfl⟩
    | undef => exact ⟨[], [], .undef, rest, rfl, rfl, rfl⟩

lemma spawnCopyLoop_append (pre : List JSValue) (strs : List String)
    (hpre : jsStrings pre = some strs) (st : AllocST) (v : ℕ)
    (copied : List (ℕ × String)) (rest : List JSValue) :
    spawnCopyLoop st v copied (pre ++ rest) =
      ((spawnCopyLoop ⟨st.next + strs.length,
          (cellsOf st.next strs).reverse ++ st.mem⟩ v
          (copied ++ addrPairs st.next strs) rest).1,
       (addrPairs st.next strs).map (fun p => AEvent.allocE p.1) ++
         (spawnCopyLoop ⟨st.next + strs.length,
           (cellsOf st.next strs).reverse ++ st.mem⟩ v
           (copied ++ addrPairs st.next strs) rest).2.1,
       (spawnCopyLoop ⟨st.next + strs.length,
           (cellsOf st.next strs).reverse ++ st.mem⟩ v
           (copied ++ addrPairs st.next strs) rest).2.2) := by
  induction pre generalizing strs st copied with
  | nil =>
    simp only [jsStrings] at hpre
    obtain rfl : strs = [] := by simpa using hpre.symm
    simp [cellsOf, addrPairs]
  | cons x pre' ih =>
    cases x with
    | str s =>
      simp only [jsStrings] at hpre
      rcases hp : jsStrings pre' with _ | strs'
      · rw [hp] at hpre; simp at hpre
      · rw [hp] at hpre
        obtain rfl : strs = s :: strs' := by simpa using hpre.symm
        simp only [List.cons_append, spawnCopyLoop, AllocST.alloc,
          List.append_eq]
        rw [ih strs' hp ⟨st.next + 1, (st.next, HCell.strC s) :: st.mem⟩
          (copied ++ [(st.next, s)])]
        simp [cellsOf, addrPairs, List.append_assoc, Nat.add_assoc,
          Nat.add_comm, Nat.add_left_comm]
    | num q => simp [jsStrings] at hpre
    | arr es => simp [jsStrings] at hpre
    | boolean b => simp [jsStrings] at hpre
    | nullV => simp [jsStrings] at hpre
    | undef => simp [jsStrings] at hpre

lemma spawnCopyLoop_ok (pre : List JSValue) (strs : List String)
    (hpre : jsStrings pre = some strs) (st : AllocST) (v : ℕ)
    (copied : List (ℕ × String)) :
    spawnCopyLoop st v copied pre =
      (⟨st.next + strs.length, (cellsOf st.next strs).reverse ++ st.mem⟩,
       (addrPairs st.next strs).map (fun p => AEvent.allocE p.1),
       some (copied ++ addrPairs st.next strs)) := by
  have h := spawnCopyLoop_append pre strs hpre st v copied []
  simpa [spawnCopyLoop] using h

lemma spawnCopyLoop_fail (pre : List JSValue) (strs : List String)
    (e : JSValue) (post : List JSValue) (hpre : jsStrings pre = some strs)
    (he : e.isString = false) (st : AllocST) (v : ℕ)
    (copied : List (ℕ × String)) :
    spawnCopyLoop st v copied (pre ++ e :: post) =
      (AllocST.freeMany
         ⟨st.next + strs.length, (cellsOf st.next strs).reverse ++ st.mem⟩
         ((copied ++ addrPairs st.next strs).map Prod.fst ++ [v]),
       (addrPairs st.next strs).map (fun p => AEvent.allocE p.1) ++
         ((copied ++ addrPairs st.next strs).map Prod.fst ++ [v]).map
           AEvent.freeE,
       none) := by
  rw [spawnCopyLoop_append pre strs hpre st v copied (e :: post)]
  cases e <;> simp_all [spawnCopyLoop, JSValue.isString]

lemma allocStrs_eq (ss : List String) (st : AllocST) :
    allocStrs st ss =
      (⟨st.next + ss.length, (cellsOf st.next ss).reverse ++ st.mem⟩,
       (addrPairs st.next ss).map (fun p => AEvent.allocE p.1),
       (addrPairs st.next ss).map Prod.fst) := by
  induction ss generalizing st with
  | nil => simp [allocStrs, cellsOf, addrPairs]
  | cons s rest ih =>
    simp only [allocStrs, AllocST.alloc]
    rw [ih ⟨st.next + 1, (st.next, HCell.strC s) :: st.mem⟩]
    simp [cellsOf, addrPairs, List.append_assoc, Nat.add_assoc, Nat.add_comm,
      Nat.add_left_comm]

lemma gGetEnviron_eq (env : List String) (st : AllocST) :
    gGetEnviron st env =
      (⟨st.next + env.length + 1,
        (st.next + env.length,
          HCell.vecC ((List.range' st.next env.length).map some ++ [none])) ::
          ((cellsOf st.next env).reverse ++ st.mem)⟩,
       (addrPairs st.next env).map (fun p => AEvent.allocE p.1) ++
         [.allocE (st.next + env.length)],
       st.next + env.length) := by
  simp [gGetEnviron, allocStrs_eq, AllocST.alloc, addrPairs_fst]

lemma map_setPair_of_no_key (L : List (ℕ × HCell)) (a : ℕ) (c : HCell)
    (h : ∀ p ∈ L, p.1 ≠ a) :
    L.map (fun p => if p.1 = a then (a, c) else p) = L := by
  induction L with
  | nil => rfl
  | cons p rest ih =>
    simp only [List.map_cons, if_neg (h p (by simp))]
    rw [ih fun q hq => h q (by simp [hq])]

lemma spawn_ok_nil (elems rest : List JSValue) (env : List String)
    (st : AllocST) (hwf : st.WF) (hstrs : jsStrings elems = some []) :
    Device.Spawn (.arr elems :: rest) env st =
      (⟨st.next + env.length + 2,
        (st.next + 1 + env.length,
          HCell.vecC ((List.range' (st.next + 1) env.length).map some ++
            [none])) ::
          ((cellsOf (st.next + 1) env).reverse ++
            (st.next, HCell.vecC [none]) :: st.mem)⟩,
       .allocE st.next ::
         ((addrPairs (st.next + 1) env).map (fun p => AEvent.allocE p.1) ++
           [.allocE (st.next + 1 + env.length)]),
       .scheduled ⟨none, st.next, st.next + 1 + env.length⟩) := by
  have hlen := jsStrings_length hstrs
  have hkeys2 : ∀ p ∈ st.mem, p.1 ≠ st.next := by
    intro p hp
    have := hwf.1 p hp
    omega
  simp only [Device.Spawn, List.head?_cons]
  rw [hlen]
  simp only [AllocST.alloc]
  rw [spawnCopyLoop_ok elems [] hstrs]
  simp only [cellsOf, addrPairs, List.map_nil, List.reverse_nil,
    List.nil_append, List.head?_nil, List.length_nil, Nat.add_zero,
    AllocST.setCell, List.map_cons]
  rw [map_setPair_of_no_key _ _ _ hkeys2]
  rw [gGetEnviron_eq]
  simp [cellsOf, List.range'_succ, Nat.add_comm, Nat.add_assoc,
    Nat.add_left_comm]

lemma spawn_ok_cons (elems : List JSValue) (s₀ : String) (strs' : List String)
    (rest : List JSValue) (env : List String) (st : AllocST) (hwf : st.WF)
    (hstrs : jsStrings elems = some (s₀ :: strs')) :
    Device.Spawn (.arr elems :: rest) env st =
      (⟨st.next + (s₀ :: strs').length + env.length + 3,
        (st.next + (s₀ :: strs').length + env.length + 2, HCell.strC s₀) ::
          (st.next + (s₀ :: strs').length + env.length + 1,
            HCell.vecC ((List.range' (st.next + 1 + (s₀ :: strs').length)
              env.length).map some ++ [none])) ::
          ((cellsOf (st.next + 1 + (s₀ :: strs').length) env).reverse ++
            ((cellsOf (st.next + 1) (s₀ :: strs')).reverse ++
              (st.next,
                HCell.vecC ((List.range' (st.next + 1)
                  (s₀ :: strs').length).map some ++ [none])) :: st.mem))⟩,
       .allocE st.next ::
         ((addrPairs (st.next + 1) (s₀ :: strs')).map
             (fun p => AEvent.allocE p.1) ++
           ((addrPairs (st.next + 1 + (s₀ :: strs').length) env).map
               (fun p => AEvent.allocE p.1) ++
             [.allocE (st.next + (s₀ :: strs').length + env.length + 1)]) ++
           [.allocE (st.next + (s₀ :: strs').length + env.length + 2)]),
       .scheduled ⟨some (st.next + (s₀ :: strs').length + env.length + 2),
         st.next, st.next + (s₀ :: strs').length + env.length + 1⟩) := by
  have hlen := jsStrings_length hstrs
  have hkeys1 : ∀ p ∈ (cellsOf (st.next + 1) (s₀ :: strs')).reverse,
      p.1 ≠ st.next := by
    intro p hp
    have := cellsOf_keys hp
    omega
  have hkeys2 : ∀ p ∈ st.mem, p.1 ≠ st.next := by
    intro p hp
    have := hwf.1 p hp
    omega
  simp only [Device.Spawn, List.head?_cons]
  rw [hlen]
  simp only [AllocST.alloc]
  rw [spawnCopyLoop_ok elems (s₀ :: strs') hstrs]
  simp only [List.nil_append, AllocST.setCell, List.map_append, List.map_cons,
    addrPairs, List.head?_cons]
  rw [map_setPair_of_no_key _ _ _ hkeys1, map_setPair_of_no_key _ _ _ hkeys2]
  rw [gGetEnviron_eq]
  simp only [AllocST.alloc]
  simp [cellsOf, addrPairs, addrPairs_fst, List.range'_succ,
    List.append_assoc, Nat.add_comm, Nat.add_assoc, Nat.add_left_comm]

/-- C1 (amended): `spawn` throws `errArgvMsg` synchronously — and creates no
operation, hence no future — exactly when the first argument is missing, not
an array, or an array with a non-string element; an array all of whose
elements are strings, the empty array included, passes validation and
schedules an operation. Every throw carries `errArgvMsg`. -/
theorem spawn_validation_rule (info : List JSValue) (env : List String)
    (st : AllocST) (hwf : st.WF) :
    ((Device.Spawn info env st).2.2 = .thrown errArgvMsg ↔
      ¬ ∃ elems strs, info.head? = some (.arr elems) ∧
        jsStrings elems = some strs) ∧
    ((∃ op, (Device.Spawn info env st).2.2 = .scheduled op) ↔
      ∃ elems strs, info.head? = some (.arr elems) ∧
        jsStrings elems = some strs) ∧
    ∀ msg, (Device.Spawn info env st).2.2 = .thrown msg →
      msg = errArgvMsg := by
  rcases info with _ | ⟨x, rest⟩
  · simp [Device.Spawn]
  · cases x with
    | arr elems =>
      rcases hj : jsStrings elems with _ | strs
      · obtain ⟨pre, strs, e, post, rfl, h2, h3⟩ := jsStrings_eq_none_split hj
        simp only [Device.Spawn, List.head?_cons, AllocST.alloc]
        rw [spawnCopyLoop_fail pre strs e post h2 h3]
        simp [hj]
      · cases strs with
        | nil =>
          rw [spawn_ok_nil elems rest env st hwf hj]
          simp [hj]
        | cons s₀ strs' =>
          rw [spawn_ok_cons elems s₀ strs' rest env st hwf hj]
          simp [hj]
    | num q => simp [Device.Spawn]
    | str s => simp [Device.Spawn]
    | boolean b => simp [Device.Spawn]
    | nullV => simp [Device.Spawn]
    | undef => simp [Device.Spawn]

/-- Witness for C1's amended theorem: `spawn("not-an-array")` throws the
argv message and schedules nothing. -/
theorem spawn_validation_rule_check :
    ((Device.Spawn [.str "x"] [] ⟨0, []⟩).2.2 = .thrown errArgvMsg ↔
      ¬ ∃ elems strs, ([JSValue.str "x"].head? = some (.arr elems)) ∧
        jsStrings elems = some strs) ∧
    ((∃ op, (Device.Spawn [.str "x"] [] ⟨0, []⟩).2.2 = .scheduled op) ↔
      ∃ elems strs, ([JSValue.str "x"].head? = some (.arr elems)) ∧
        jsStrings elems = some strs) ∧
    ∀ msg, (Device.Spawn [.str "x"] [] ⟨0, []⟩).2.2 = .thrown msg →
      msg = errArgvMsg :=
  spawn_validation_rule [.str "x"] [] ⟨0, []⟩ ⟨by simp, by simp⟩

/-- C10: when `spawn`'s array has a non-string element, validation stops at
the first such element — exactly the strings before it were copied — frees
every copied string and the argv vector before throwing, creates no
operation, and restores the heap exactly (no captured-argument memory
leaks); every address freed in the trace was allocated in it and vice
versa. -/
theorem spawn_failure_no_leak (pre : List JSValue) (strs : List String)
    (e : JSValue) (post rest : List JSValue) (env : List String)
    (st : AllocST) (hwf : st.WF) (hpre : jsStrings pre = some strs)
    (he : e.isString = false) :
    Device.Spawn (.arr (pre ++ e :: post) :: rest) env st =
      (⟨st.next + strs.length + 1, st.mem⟩,
       .allocE st.next ::
         ((List.range' (st.next + 1) strs.length).map AEvent.allocE ++
           ((List.range' (st.next + 1) strs.length).map AEvent.freeE ++
             [.freeE st.next])),
       .thrown errArgvMsg) ∧
    ∀ a : ℕ,
      ((Device.Spawn (.arr (pre ++ e :: post) :: rest) env st).2.1).count
          (.freeE a) =
        ((Device.Spawn (.arr (pre ++ e :: post) :: rest) env st).2.1).count
          (.allocE a) := by
  have key : Device.Spawn (.arr (pre ++ e :: post) :: rest) env st =
      (⟨st.next + strs.length + 1, st.mem⟩,
       .allocE st.next ::
         ((List.range' (st.next + 1) strs.length).map AEvent.allocE ++
           ((List.range' (st.next + 1) strs.length).map AEvent.freeE ++
             [.freeE st.next])),
       .thrown errArgvMsg) := by
    simp only [Device.Spawn, List.head?_cons, AllocST.alloc]
    rw [spawnCopyLoop_fail pre strs e post hpre he]
    simp only [List.nil_append, addrPairs_fst]
    refine Prod.ext ?_ (Prod.ext ?_ rfl)
    · refine AllocST.ext ?_ ?_
      · simp [freeMany_next]
        omega
      · rw [freeMany_mem]
        rw [List.filter_append, List.filter_cons]
        have hc : (List.filter
            (fun p => decide (p.1 ∉ List.range' (st.next + 1) strs.length ++
              [st.next]))
            ((cellsOf (st.next + 1) strs).reverse)) = [] := by
          rw [List.filter_eq_nil_iff]
          intro p hp
          have hb := cellsOf_keys hp
          simp only [List.mem_append, List.mem_range'_1, List.mem_singleton,
            decide_eq_true_eq, not_not]
          exact Or.inl ⟨by omega, by omega⟩
        rw [hc]
        have hd : (decide ((st.next, HCell.vecC
            (List.replicate (strs.length + 1) none)).1 ∉
            List.range' (st.next + 1) strs.length ++ [st.next])) = false := by
          simp
        rw [hd]
        have hs : List.filter
            (fun p => decide (p.1 ∉ List.range' (st.next + 1) strs.length ++
              [st.next])) st.mem = st.mem := by
          rw [List.filter_eq_self]
          intro p hp
          have := hwf.1 p hp
          simp only [List.mem_append, List.mem_range'_1, List.mem_singleton,
            decide_eq_true_eq, not_or, not_and]
          exact ⟨fun h => by omega, by omega⟩
        rw [hs]
        simp
    · simp [← addrPairs_fst, List.map_map, List.map_append, Function.comp]
  refine ⟨key, ?_⟩
  intro a
  rw [key]
  have hfr : Function.Injective AEvent.freeE := by
    intro x y hxy
    simpa using hxy
  have hal : Function.Injective AEvent.allocE := by
    intro x y hxy
    simpa using hxy
  simp only [List.count_cons, List.count_append]
  rw [List.count_map_of_injective _ _ hfr, List.count_map_of_injective _ _ hal]
  have h1 : (List.count (AEvent.freeE a)
      ((List.range' (st.next + 1) strs.length).map AEvent.allocE)) = 0 := by
    rw [List.count_eq_zero]
    simp
  have h2 : (List.count (AEvent.allocE a)
      ((List.range' (st.next + 1) strs.length).map AEvent.freeE)) = 0 := by
    rw [List.count_eq_zero]
    simp
  rw [h1, h2]
  simp [List.count_singleton']

/-- Witness for C10: `spawn(["a", 1])` — the heap is restored, one string
copy and the vector are each freed exactly once, and the call throws. -/
theorem spawn_failure_no_leak_check :
    Device.Spawn [.arr [.str "a", .num 1]] [] ⟨0, []⟩ =
      (⟨2, []⟩,
       .allocE 0 :: ((List.range' 1 1).map AEvent.allocE ++
         ((List.range' 1 1).map AEvent.freeE ++ [.freeE 0])),
       .thrown errArgvMsg) ∧
    ∀ a : ℕ,
      ((Device.Spawn [.arr [.str "a", .num 1]] [] ⟨0, []⟩).2.1).count
          (.freeE a) =
        ((Device.Spawn [.arr [.str "a", .num 1]] [] ⟨0, []⟩).2.1).count
          (.allocE a) :=
  spawn_failure_no_leak [.str "a"] ["a"] (.num 1) [] [] [] ⟨0, []⟩
    ⟨by simp, by simp⟩ rfl rfl

lemma listFind_append_left {L1 L2 : List (ℕ × HCell)} {a : ℕ} {c : HCell}
    (h : listFind L1 a = some c) : listFind (L1 ++ L2) a = some c := by
  induction L1 with
  | nil => simp [listFind] at h
  | cons p rest ih =>
    by_cases hp : p.1 = a
    · simp only [listFind, if_pos hp] at h
      simp [listFind, hp, h]
    · simp only [listFind, if_neg hp] at h
      simp [listFind, hp, ih h]

lemma mapM_readStr_of_pairs (st : AllocST) (ps : List (ℕ × String))
    (h : ∀ p ∈ ps, readStr st p.1 = some p.2) :
    (ps.map Prod.fst).mapM (readStr st) = some (ps.map Prod.snd) := by
  induction ps with
  | nil => rfl
  | cons p rest ih =>
    simp only [List.map_cons, List.mapM_cons, h p (by simp),
      ih fun q hq => h q (by simp [hq])]
    rfl

lemma readStr_congr (st1 st2 : AllocST) (a : ℕ)
    (h : st2.lookup a = st1.lookup a) : readStr st2 a = readStr st1 a := by
  simp [readStr, h]

lemma mapM_readStr_congr (st1 st2 : AllocST) (l : List ℕ)
    (h : ∀ a ∈ l, readStr st2 a = readStr st1 a) :
    l.mapM (readStr st2) = l.mapM (readStr st1) := by
  induction l with
  | nil => rfl
  | cons a t ih =>
    simp only [List.mapM_cons]
    rw [h a (by simp), ih fun b hb => h b (by simp [hb])]

/-- Frame property of `SpawnOperation::Begin`: the arguments passed to
`frida_device_spawn` depend only on the cells the operation owns, so any
heap that agrees with the current one on those cells — in particular one in
which the caller has mutated or freed its own, disjoint, buffers — yields
the same native call. -/
lemma beginArgs_frame (op : SpawnOperationH) (st1 st2 : AllocST)
    (h : ∀ a ∈ op.cells st1, st2.lookup a = st1.lookup a) :
    op.beginArgs st2 = op.beginArgs st1 := by
  have hargv : st2.lookup op.argv = st1.lookup op.argv :=
    h op.argv (by simp [SpawnOperationH.cells])
  have henvp : st2.lookup op.envp = st1.lookup op.envp :=
    h op.envp (by simp [SpawnOperationH.cells])
  unfold SpawnOperationH.beginArgs
  refine Prod.ext ?_ (Prod.ext ?_ ?_)
  · cases hp : op.path with
    | none => rfl
    | some pa =>
      have hmem : pa ∈ op.cells st1 := by
        simp [SpawnOperationH.cells, SpawnOperationH.strCells, hp]
      simp only [Option.bind_some]
      exact readStr_congr st1 st2 pa (h pa hmem)
  · show readStrv st2 op.argv = readStrv st1 op.argv
    unfold readStrv
    rw [hargv]
    cases h1 : st1.lookup op.argv with
    | none => rfl
    | some c =>
      cases c with
      | strC s => rfl
      | vecC ptrs =>
        refine mapM_readStr_congr st1 st2 (strvPtrs ptrs) fun a ha => ?_
        refine readStr_congr st1 st2 a (h a ?_)
        simp [SpawnOperationH.cells, SpawnOperationH.strCells, h1, ha]
  · show readStrv st2 op.envp = readStrv st1 op.envp
    unfold readStrv
    rw [henvp]
    cases h1 : st1.lookup op.envp with
    | none => rfl
    | some c =>
      cases c with
      | strC s => rfl
      | vecC ptrs =>
        refine mapM_readStr_congr st1 st2 (strvPtrs ptrs) fun a ha => ?_
        refine readStr_congr st1 st2 a (h a ?_)
        simp [SpawnOperationH.cells, SpawnOperationH.strCells, h1, ha]

lemma gStrfreev_of_vec (st : AllocST) (a : ℕ) (xs : List ℕ)
    (h : st.lookup a = some (.vecC (xs.map some ++ [none]))) :
    gStrfreev st a =
      (st.freeMany (xs ++ [a]), xs.map AEvent.freeE ++ [.freeE a]) := by
  unfold gStrfreev
  rw [h]
  simp only [strvPtrs_some, freeMany_append]
  rfl

lemma lookup_freeMany_of_not_mem (st : AllocST) (as : List ℕ) (a : ℕ)
    (h : a ∉ as) : (st.freeMany as).lookup a = st.lookup a := by
  rw [lookup_eq_listFind, lookup_eq_listFind]
  have hmem : (st.freeMany as).mem =
      st.mem.filter (fun p => decide (p.1 ∉ as)) := freeMany_mem as st
  rw [hmem]
  exact listFind_filter st.mem _ a fun c => by simpa using h

lemma listFind_cons_ne {p : ℕ × HCell} {L : List (ℕ × HCell)} {a : ℕ}
    (h : p.1 ≠ a) : listFind (p :: L) a = listFind L a := by
  simp [listFind, h]

lemma freeE_injective : Function.Injective AEvent.freeE := by
  intro x y hxy
  simpa using hxy

lemma count_freeE_map (a : ℕ) (xs : List ℕ) :
    (xs.map AEvent.freeE).count (.freeE a) = xs.count a :=
  List.count_map_of_injective xs AEvent.freeE freeE_injective a

lemma count_range' (a s n : ℕ) :
    (List.range' s n).count a = if a ∈ List.range' s n then 1 else 0 := by
  by_cases h : a ∈ List.range' s n
  · rw [if_pos h]
    exact List.count_eq_one_of_mem (List.nodup_range' _ _) h
  · rw [if_neg h]
    exact List.count_eq_zero_of_not_mem h

lemma listFind_cons_ne' {b : ℕ} {c : HCell} {L : List (ℕ × HCell)} {a : ℕ}
    (h : b ≠ a) : listFind ((b, c) :: L) a = listFind L a := by
  simp [listFind, h]

/-- C8: a spawn call that passes validation schedules an operation owning
independent deep copies of its inputs: every cell the operation owns is
fresh (allocated at or above the pre-call bump counter, hence disjoint from
every caller-owned cell), dereferencing them yields exactly the argv
strings, the first argv string as the path (no path for an empty argv), and
the environment snapshot; the arguments `Begin` passes to the native spawn
call depend only on those cells, so mutating or freeing any other cell
changes nothing; and the destructor's trace frees each owned cell exactly
once and frees nothing else. -/
theorem spawn_captures_deep_copies (elems : List JSValue) (strs : List String)
    (rest : List JSValue) (env : List String) (st : AllocST) (hwf : st.WF)
    (hstrs : jsStrings elems = some strs) :
    ∃ st1 op,
      (Device.Spawn (.arr elems :: rest) env st).1 = st1 ∧
      (Device.Spawn (.arr elems :: rest) env st).2.2 =
        SpawnOutcome.scheduled op ∧
      (∀ a ∈ op.cells st1, st.next ≤ a) ∧
      (∀ p ∈ st.mem, p.1 ∉ op.cells st1) ∧
      op.beginArgs st1 = (strs.head?, some strs, some env) ∧
      (∀ st2 : AllocST, (∀ a ∈ op.cells st1, st2.lookup a = st1.lookup a) →
        op.beginArgs st2 = op.beginArgs st1) ∧
      (∀ a : ℕ, ((op.dtor st1).2).count (.freeE a) =
        if a ∈ op.cells st1 then 1 else 0) ∧
      (∀ ev ∈ (op.dtor st1).2, ∃ a, ev = AEvent.freeE a) := by
  cases strs with
  | nil =>
    have key := spawn_ok_nil elems rest env st hwf hstrs
    have hargv : (⟨st.next + env.length + 2,
        (st.next + 1 + env.length,
          HCell.vecC ((List.range' (st.next + 1) env.length).map some ++
            [none])) ::
          ((cellsOf (st.next + 1) env).reverse ++
            (st.next, HCell.vecC [none]) :: st.mem)⟩ : AllocST).lookup
          st.next = some (HCell.vecC (([] : List ℕ).map some ++ [none])) := by
      rw [lookup_eq_listFind]
      rw [listFind_cons_ne' (by omega)]
      rw [listFind_append_of_none _
        (fun p hp => by have := cellsOf_keys hp; omega)]
      rw [listFind_cons_self]
      rfl
    have henvp : (⟨st.next + env.length + 2,
        (st.next + 1 + env.length,
          HCell.vecC ((List.range' (st.next + 1) env.length).map some ++
            [none])) ::
          ((cellsOf (st.next + 1) env).reverse ++
            (st.next, HCell.vecC [none]) :: st.mem)⟩ : AllocST).lookup
          (st.next + 1 + env.length) =
        some (HCell.vecC ((List.range' (st.next + 1) env.length).map some ++
          [none])) := by
      rw [lookup_eq_listFind, listFind_cons_self]
    have henvStr : ∀ p ∈ addrPairs (st.next + 1) env,
        readStr (⟨st.next + env.length + 2,
          (st.next + 1 + env.length,
            HCell.vecC ((List.range' (st.next + 1) env.length).map some ++
              [none])) ::
            ((cellsOf (st.next + 1) env).reverse ++
              (st.next, HCell.vecC [none]) :: st.mem)⟩ : AllocST) p.1 =
          some p.2 := by
      intro p hp
      have hb := mem_addrPairs_bounds hp
      unfold readStr
      rw [lookup_eq_listFind]
      rw [listFind_cons_ne' (by omega)]
      rw [listFind_append_left (listFind_of_mem_nodup
        (cellsOf_keys_nodup _ _)
        (List.mem_reverse.mpr (List.mem_map.mpr ⟨p, hp, rfl⟩)))]
    have hcells : SpawnOperationH.cells
        ⟨none, st.next, st.next + 1 + env.length⟩
        ⟨st.next + env.length + 2,
          (st.next + 1 + env.length,
            HCell.vecC ((List.range' (st.next + 1) env.length).map some ++
              [none])) ::
            ((cellsOf (st.next + 1) env).reverse ++
              (st.next, HCell.vecC [none]) :: st.mem)⟩ =
        st.next :: (st.next + 1 + env.length) ::
          List.range' (st.next + 1) env.length := by
      unfold SpawnOperationH.cells SpawnOperationH.strCells
      rw [hargv, henvp]
      simp [strvPtrs_some, strvPtrs]
    have hreadArgv : readStrv
        (⟨st.next + env.length + 2,
          (st.next + 1 + env.length,
            HCell.vecC ((List.range' (st.next + 1) env.length).map some ++
              [none])) ::
            ((cellsOf (st.next + 1) env).reverse ++
              (st.next, HCell.vecC [none]) :: st.mem)⟩ : AllocST) st.next =
        some ([] : List String) := by
      unfold readStrv
      rw [hargv]
      simp only [strvPtrs_some]
      rfl
    have hreadEnv : readStrv
        (⟨st.next + env.length + 2,
          (st.next + 1 + env.length,
            HCell.vecC ((List.range' (st.next + 1) env.length).map some ++
              [none])) ::
            ((cellsOf (st.next + 1) env).reverse ++
              (st.next, HCell.vecC [none]) :: st.mem)⟩ : AllocST)
          (st.next + 1 + env.length) = some env := by
      have henvStr' := mapM_readStr_of_pairs _ _ henvStr
      rw [addrPairs_fst, addrPairs_snd] at henvStr'
      unfold readStrv
      rw [henvp]
      simp only [strvPtrs_some, henvStr']
    have hbegin : SpawnOperationH.beginArgs
        ⟨none, st.next, st.next + 1 + env.length⟩
        ⟨st.next + env.length + 2,
          (st.next + 1 + env.length,
            HCell.vecC ((List.range' (st.next + 1) env.length).map some ++
              [none])) ::
            ((cellsOf (st.next + 1) env).reverse ++
              (st.next, HCell.vecC [none]) :: st.mem)⟩ =
        (none, some ([] : List String), some env) := by
      unfold SpawnOperationH.beginArgs
      rw [hreadArgv, hreadEnv]
      rfl
    have hdtor : (SpawnOperationH.dtor
        ⟨none, st.next, st.next + 1 + env.length⟩
        ⟨st.next + env.length + 2,
          (st.next + 1 + env.length,
            HCell.vecC ((List.range' (st.next + 1) env.length).map some ++
              [none])) ::
            ((cellsOf (st.next + 1) env).reverse ++
              (st.next, HCell.vecC [none]) :: st.mem)⟩).2 =
        ((List.range' (st.next + 1) env.length ++
          [st.next + 1 + env.length]) ++ [st.next]).map AEvent.freeE := by
      have hlk : ((⟨st.next + env.length + 2,
          (st.next + 1 + env.length,
            HCell.vecC ((List.range' (st.next + 1) env.length).map some ++
              [none])) ::
            ((cellsOf (st.next + 1) env).reverse ++
              (st.next, HCell.vecC [none]) :: st.mem)⟩ : AllocST).freeMany
          (List.range' (st.next + 1) env.length ++
            [st.next + 1 + env.length])).lookup st.next =
          some (HCell.vecC (([] : List ℕ).map some ++ [none])) := by
        rw [lookup_freeMany_of_not_mem]
        · exact hargv
        · intro hcon
          simp only [List.mem_append, List.mem_range'_1,
            List.mem_singleton] at hcon
          omega
      unfold SpawnOperationH.dtor
      simp only [gStrfreev_of_vec _ _ _ henvp, gStrfreev_of_vec _ _ _ hlk,
        gFreeOpt]
      simp [List.map_append]
    have hfresh : ∀ a ∈ SpawnOperationH.cells
        ⟨none, st.next, st.next + 1 + env.length⟩
        ⟨st.next + env.length + 2,
          (st.next + 1 + env.length,
            HCell.vecC ((List.range' (st.next + 1) env.length).map some ++
              [none])) ::
            ((cellsOf (st.next + 1) env).reverse ++
              (st.next, HCell.vecC [none]) :: st.mem)⟩, st.next ≤ a := by
      intro a ha
      rw [hcells] at ha
      simp only [List.mem_cons, List.mem_range'_1] at ha
      omega
    have hcount : ∀ a : ℕ, ((SpawnOperationH.dtor
        ⟨none, st.next, st.next + 1 + env.length⟩
        ⟨st.next + env.length + 2,
          (st.next + 1 + env.length,
            HCell.vecC ((List.range' (st.next + 1) env.length).map some ++
              [none])) ::
            ((cellsOf (st.next + 1) env).reverse ++
              (st.next, HCell.vecC [none]) :: st.mem)⟩).2).count
          (.freeE a) =
        if a ∈ SpawnOperationH.cells
          ⟨none, st.next, st.next + 1 + env.length⟩
          ⟨st.next + env.length + 2,
            (st.next + 1 + env.length,
              HCell.vecC ((List.range' (st.next + 1) env.length).map some ++
                [none])) ::
              ((cellsOf (st.next + 1) env).reverse ++
                (st.next, HCell.vecC [none]) :: st.mem)⟩ then 1 else 0 := by
      intro a
      rw [hdtor, hcells, count_freeE_map]
      simp only [List.count_append, count_range', List.count_singleton',
        List.mem_cons, List.not_mem_nil, or_false, List.mem_range'_1,
        beq_iff_eq, AEvent.freeE.injEq]
      split_ifs <;> omega
    have hev : ∀ ev ∈ (SpawnOperationH.dtor
        ⟨none, st.next, st.next + 1 + env.length⟩
        ⟨st.next + env.length + 2,
          (st.next + 1 + env.length,
            HCell.vecC ((List.range' (st.next + 1) env.length).map some ++
              [none])) ::
            ((cellsOf (st.next + 1) env).reverse ++
              (st.next, HCell.vecC [none]) :: st.mem)⟩).2,
        ∃ a, ev = AEvent.freeE a := by
      rw [hdtor]
      intro ev hev
      obtain ⟨a, ha, rfl⟩ := List.mem_map.mp hev
      exact ⟨a, rfl⟩
    refine ⟨_, _, ?_, ?_, hfresh, ?_, by simpa using hbegin,
      fun st2 h => beginArgs_frame _ _ _ h, hcount, hev⟩
    · rw [key]
    · rw [key]
    · intro p hp hmem
      have h1 := hwf.1 p hp
      have h2 := hfresh p.1 hmem
      omega
  | cons s₀ strs' =>
    have key := spawn_ok_cons elems s₀ strs' rest env st hwf hstrs
    have hargv : (⟨st.next + (s₀ :: strs').length + env.length + 3,
        (st.next + (s₀ :: strs').length + env.length + 2, HCell.strC s₀) ::
          (st.next + (s₀ :: strs').length + env.length + 1,
            HCell.vecC ((List.range' (st.next + 1 + (s₀ :: strs').length)
              env.length).map some ++ [none])) ::
          ((cellsOf (st.next + 1 + (s₀ :: strs').length) env).reverse ++
            ((cellsOf (st.next + 1) (s₀ :: strs')).reverse ++
              (st.next,
                HCell.vecC ((List.range' (st.next + 1)
                  (s₀ :: strs').length).map some ++ [none])) ::
                st.mem))⟩ : AllocST).lookup st.next =
        some (HCell.vecC ((List.range' (st.next + 1)
          (s₀ :: strs').length).map some ++ [none])) := by
      rw [lookup_eq_listFind]
      rw [listFind_cons_ne' (by omega), listFind_cons_ne' (by omega)]
      rw [listFind_append_of_none _
        (fun p hp => by have := cellsOf_keys hp; omega)]
      rw [listFind_append_of_none _
        (fun p hp => by have := cellsOf_keys hp; omega)]
      rw [listFind_cons_self]
    have hpath : (⟨st.next + (s₀ :: strs').length + env.length + 3,
        (st.next + (s₀ :: strs').length + env.length + 2, HCell.strC s₀) ::
          (st.next + (s₀ :: strs').length + env.length + 1,
            HCell.vecC ((List.range' (st.next + 1 + (s₀ :: strs').length)
              env.length).map some ++ [none])) ::
          ((cellsOf (st.next + 1 + (s₀ :: strs').length) env).reverse ++
            ((cellsOf (st.next + 1) (s₀ :: strs')).reverse ++
              (st.next,
                HCell.vecC ((List.range' (st.next + 1)
                  (s₀ :: strs').length).map some ++ [none])) ::
                st.mem))⟩ : AllocST).lookup
          (st.next + (s₀ :: strs').length + env.length + 2) =
        some (HCell.strC s₀) := by
      rw [lookup_eq_listFind, listFind_cons_self]
    have henvp : (⟨st.next + (s₀ :: strs').length + env.length + 3,
        (st.next + (s₀ :: strs').length + env.length + 2, HCell.strC s₀) ::
          (st.next + (s₀ :: strs').length + env.length + 1,
            HCell.vecC ((List.range' (st.next + 1 + (s₀ :: strs').length)
              env.length).map some ++ [none])) ::
          ((cellsOf (st.next + 1 + (s₀ :: strs').length) env).reverse ++
            ((cellsOf (st.next + 1) (s₀ :: strs')).reverse ++
              (st.next,
                HCell.vecC ((List.range' (st.next + 1)
                  (s₀ :: strs').length).map some ++ [none])) ::
                st.mem))⟩ : AllocST).lookup
          (st.next + (s₀ :: strs').length + env.length + 1) =
        some (HCell.vecC ((List.range' (st.next + 1 + (s₀ :: strs').length)
          env.length).map some ++ [none])) := by
      rw [lookup_eq_listFind, listFind_cons_ne' (by omega),
        listFind_cons_self]
    have hargvStr : ∀ p ∈ addrPairs (st.next + 1) (s₀ :: strs'),
        readStr (⟨st.next + (s₀ :: strs').length + env.length + 3,
          (st.next + (s₀ :: strs').length + env.length + 2,
            HCell.strC s₀) ::
            (st.next + (s₀ :: strs').length + env.length + 1,
              HCell.vecC ((List.range' (st.next + 1 + (s₀ :: strs').length)
                env.length).map some ++ [none])) ::
            ((cellsOf (st.next + 1 + (s₀ :: strs').length) env).reverse ++
              ((cellsOf (st.next + 1) (s₀ :: strs')).reverse ++
                (st.next,
                  HCell.vecC ((List.range' (st.next + 1)
                    (s₀ :: strs').length).map some ++ [none])) ::
                  st.mem))⟩ : AllocST) p.1 = some p.2 := by
      intro p hp
      have hb := mem_addrPairs_bounds hp
      unfold readStr
      rw [lookup_eq_listFind]
      rw [listFind_cons_ne' (by omega), listFind_cons_ne' (by omega)]
      rw [listFind_append_of_none _
        (fun q hq => by have := cellsOf_keys hq; omega)]
      rw [listFind_append_left (listFind_of_mem_nodup
        (cellsOf_keys_nodup _ _)
        (List.mem_reverse.mpr (List.mem_map.mpr ⟨p, hp, rfl⟩)))]
    have henvStr : ∀ p ∈ addrPairs (st.next + 1 + (s₀ :: strs').length) env,
        readStr (⟨st.next + (s₀ :: strs').length + env.length + 3,
          (st.next + (s₀ :: strs').length + env.length + 2,
            HCell.strC s₀) ::
            (st.next + (s₀ :: strs').length + env.length + 1,
              HCell.vecC ((List.range' (st.next + 1 + (s₀ :: strs').length)
                env.length).map some ++ [none])) ::
            ((cellsOf (st.next + 1 + (s₀ :: strs').length) env).reverse ++
              ((cellsOf (st.next + 1) (s₀ :: strs')).reverse ++
                (st.next,
                  HCell.vecC ((List.range' (st.next + 1)
                    (s₀ :: strs').length).map some ++ [none])) ::
                  st.mem))⟩ : AllocST) p.1 = some p.2 := by
      intro p hp
      have hb := mem_addrPairs_bounds hp
      unfold readStr
      rw [lookup_eq_listFind]
      rw [listFind_cons_ne' (by omega), listFind_cons_ne' (by omega)]
      rw [listFind_append_left (listFind_of_mem_nodup
        (cellsOf_keys_nodup _ _)
        (List.mem_reverse.mpr (List.mem_map.mpr ⟨p, hp, rfl⟩)))]
    have hcells : SpawnOperationH.cells
        ⟨some (st.next + (s₀ :: strs').length + env.length + 2), st.next,
          st.next + (s₀ :: strs').length + env.length + 1⟩
        ⟨st.next + (s₀ :: strs').length + env.length + 3,
          (st.next + (s₀ :: strs').length + env.length + 2,
            HCell.strC s₀) ::
            (st.next + (s₀ :: strs').length + env.length + 1,
              HCell.vecC ((List.range' (st.next + 1 + (s₀ :: strs').length)
                env.length).map some ++ [none])) ::
            ((cellsOf (st.next + 1 + (s₀ :: strs').length) env).reverse ++
              ((cellsOf (st.next + 1) (s₀ :: strs')).reverse ++
                (st.next,
                  HCell.vecC ((List.range' (st.next + 1)
                    (s₀ :: strs').length).map some ++ [none])) ::
                  st.mem))⟩ =
        st.next :: (st.next + (s₀ :: strs').length + env.length + 1) ::
          ([st.next + (s₀ :: strs').length + env.length + 2] ++
            List.range' (st.next + 1) (s₀ :: strs').length ++
            List.range' (st.next + 1 + (s₀ :: strs').length) env.length) := by
      unfold SpawnOperationH.cells SpawnOperationH.strCells
      rw [hargv, henvp]
      simp [strvPtrs_some]
    have hreadP : readStr (⟨st.next + (s₀ :: strs').length + env.length + 3,
        (st.next + (s₀ :: strs').length + env.length + 2, HCell.strC s₀) ::
          (st.next + (s₀ :: strs').length + env.length + 1,
            HCell.vecC ((List.range' (st.next + 1 + (s₀ :: strs').length)
              env.length).map some ++ [none])) ::
          ((cellsOf (st.next + 1 + (s₀ :: strs').length) env).reverse ++
            ((cellsOf (st.next + 1) (s₀ :: strs')).reverse ++
              (st.next,
                HCell.vecC ((List.range' (st.next + 1)
                  (s₀ :: strs').length).map some ++ [none])) ::
                st.mem))⟩ : AllocST)
          (st.next + (s₀ :: strs').length + env.length + 2) = some s₀ := by
      unfold readStr
      rw [hpath]
    have hreadArgv : readStrv
        (⟨st.next + (s₀ :: strs').length + env.length + 3,
          (st.next + (s₀ :: strs').length + env.length + 2,
            HCell.strC s₀) ::
            (st.next + (s₀ :: strs').length + env.length + 1,
              HCell.vecC ((List.range' (st.next + 1 + (s₀ :: strs').length)
                env.length).map some ++ [none])) ::
            ((cellsOf (st.next + 1 + (s₀ :: strs').length) env).reverse ++
              ((cellsOf (st.next + 1) (s₀ :: strs')).reverse ++
                (st.next,
                  HCell.vecC ((List.range' (st.next + 1)
                    (s₀ :: strs').length).map some ++ [none])) ::
                  st.mem))⟩ : AllocST) st.next = some (s₀ :: strs') := by
      have hargvStr' := mapM_readStr_of_pairs _ _ hargvStr
      rw [addrPairs_fst, addrPairs_snd] at hargvStr'
      unfold readStrv
      rw [hargv]
      simp only [strvPtrs_some, hargvStr']
    have hreadEnv : readStrv
        (⟨st.next + (s₀ :: strs').length + env.length + 3,
          (st.next + (s₀ :: strs').length + env.length + 2,
            HCell.strC s₀) ::
            (st.next + (s₀ :: strs').length + env.length + 1,
              HCell.vecC ((List.range' (st.next + 1 + (s₀ :: strs').length)
                env.length).map some ++ [none])) ::
            ((cellsOf (st.next + 1 + (s₀ :: strs').length) env).reverse ++
              ((cellsOf (st.next + 1) (s₀ :: strs')).reverse ++
                (st.next,
                  HCell.vecC ((List.range' (st.next + 1)
                    (s₀ :: strs').length).map some ++ [none])) ::
                  st.mem))⟩ : AllocST)
          (st.next + (s₀ :: strs').length + env.length + 1) = some env := by
      have henvStr' := mapM_readStr_of_pairs _ _ henvStr
      rw [addrPairs_fst, addrPairs_snd] at henvStr'
      unfold readStrv
      rw [henvp]
      simp only [strvPtrs_some, henvStr']
    have hbegin : SpawnOperationH.beginArgs
        ⟨some (st.next + (s₀ :: strs').length + env.length + 2), st.next,
          st.next + (s₀ :: strs').length + env.length + 1⟩
        ⟨st.next + (s₀ :: strs').length + env.length + 3,
          (st.next + (s₀ :: strs').length + env.length + 2,
            HCell.strC s₀) ::
            (st.next + (s₀ :: strs').length + env.length + 1,
              HCell.vecC ((List.range' (st.next + 1 + (s₀ :: strs').length)
                env.length).map some ++ [none])) ::
            ((cellsOf (st.next + 1 + (s₀ :: strs').length) env).reverse ++
              ((cellsOf (st.next + 1) (s₀ :: strs')).reverse ++
                (st.next,
                  HCell.vecC ((List.range' (st.next + 1)
                    (s₀ :: strs').length).map some ++ [none])) ::
                  st.mem))⟩ =
        (some s₀, some (s₀ :: strs'), some env) := by
      unfold SpawnOperationH.beginArgs
      rw [hreadArgv, hreadEnv]
      exact Prod.ext hreadP rfl
    have hdtor : (SpawnOperationH.dtor
        ⟨some (st.next + (s₀ :: strs').length + env.length + 2), st.next,
          st.next + (s₀ :: strs').length + env.length + 1⟩
        ⟨st.next + (s₀ :: strs').length + env.length + 3,
          (st.next + (s₀ :: strs').length + env.length + 2,
            HCell.strC s₀) ::
            (st.next + (s₀ :: strs').length + env.length + 1,
              HCell.vecC ((List.range' (st.next + 1 + (s₀ :: strs').length)
                env.length).map some ++ [none])) ::
            ((cellsOf (st.next + 1 + (s₀ :: strs').length) env).reverse ++
              ((cellsOf (st.next + 1) (s₀ :: strs')).reverse ++
                (st.next,
                  HCell.vecC ((List.range' (st.next + 1)
                    (s₀ :: strs').length).map some ++ [none])) ::
                  st.mem))⟩).2 =
        ((List.range' (st.next + 1 + (s₀ :: strs').length) env.length ++
          [st.next + (s₀ :: strs').length + env.length + 1]) ++
          (List.range' (st.next + 1) (s₀ :: strs').length ++ [st.next]) ++
          [st.next + (s₀ :: strs').length + env.length + 2]).map
          AEvent.freeE := by
      have hlk : ((⟨st.next + (s₀ :: strs').length + env.length + 3,
          (st.next + (s₀ :: strs').length + env.length + 2,
            HCell.strC s₀) ::
            (st.next + (s₀ :: strs').length + env.length + 1,
              HCell.vecC ((List.range' (st.next + 1 + (s₀ :: strs').length)
                env.length).map some ++ [none])) ::
            ((cellsOf (st.next + 1 + (s₀ :: strs').length) env).reverse ++
              ((cellsOf (st.next + 1) (s₀ :: strs')).reverse ++
                (st.next,
                  HCell.vecC ((List.range' (st.next + 1)
                    (s₀ :: strs').length).map some ++ [none])) ::
                  st.mem))⟩ : AllocST).freeMany
          (List.range' (st.next + 1 + (s₀ :: strs').length) env.length ++
            [st.next + (s₀ :: strs').length + env.length + 1])).lookup
            st.next =
          some (HCell.vecC ((List.range' (st.next + 1)
            (s₀ :: strs').length).map some ++ [none])) := by
        rw [lookup_freeMany_of_not_mem]
        · exact hargv
        · intro hcon
          simp only [List.mem_append, List.mem_range'_1,
            List.mem_singleton] at hcon
          omega
      unfold SpawnOperationH.dtor
      simp only [gStrfreev_of_vec _ _ _ henvp, gStrfreev_of_vec _ _ _ hlk,
        gFreeOpt]
      simp [List.map_append]
    have hfresh : ∀ a ∈ SpawnOperationH.cells
        ⟨some (st.next + (s₀ :: strs').length + env.length + 2), st.next,
          st.next + (s₀ :: strs').length + env.length + 1⟩
        ⟨st.next + (s₀ :: strs').length + env.length + 3,
          (st.next + (s₀ :: strs').length + env.length + 2,
            HCell.strC s₀) ::
            (st.next + (s₀ :: strs').length + env.length + 1,
              HCell.vecC ((List.range' (st.next + 1 + (s₀ :: strs').length)
                env.length).map some ++ [none])) ::
            ((cellsOf (st.next + 1 + (s₀ :: strs').length) env).reverse ++
              ((cellsOf (st.next + 1) (s₀ :: strs')).reverse ++
                (st.next,
                  HCell.vecC ((List.range' (st.next + 1)
                    (s₀ :: strs').length).map some ++ [none])) ::
                  st.mem))⟩, st.next ≤ a := by
      intro a ha
      rw [hcells] at ha
      simp only [List.mem_cons, List.mem_append, List.mem_singleton,
        List.not_mem_nil, or_false, List.mem_range'_1] at ha
      omega
    have hcount : ∀ a : ℕ, ((SpawnOperationH.dtor
        ⟨some (st.next + (s₀ :: strs').length + env.length + 2), st.next,
          st.next + (s₀ :: strs').length + env.length + 1⟩
        ⟨st.next + (s₀ :: strs').length + env.length + 3,
          (st.next + (s₀ :: strs').length + env.length + 2,
            HCell.strC s₀) ::
            (st.next + (s₀ :: strs').length + env.length + 1,
              HCell.vecC ((List.range' (st.next + 1 + (s₀ :: strs').length)
                env.length).map some ++ [none])) ::
            ((cellsOf (st.next + 1 + (s₀ :: strs').length) env).reverse ++
              ((cellsOf (st.next + 1) (s₀ :: strs')).reverse ++
                (st.next,
                  HCell.vecC ((List.range' (st.next + 1)
                    (s₀ :: strs').length).map some ++ [none])) ::
                  st.mem))⟩).2).count (.freeE a) =
        if a ∈ SpawnOperationH.cells
          ⟨some (st.next + (s₀ :: strs').length + env.length + 2), st.next,
            st.next + (s₀ :: strs').length + env.length + 1⟩
          ⟨st.next + (s₀ :: strs').length + env.length + 3,
            (st.next + (s₀ :: strs').length + env.length + 2,
              HCell.strC s₀) ::
              (st.next + (s₀ :: strs').length + env.length + 1,
                HCell.vecC ((List.range'
                  (st.next + 1 + (s₀ :: strs').length)
                  env.length).map some ++ [none])) ::
              ((cellsOf (st.next + 1 + (s₀ :: strs').length) env).reverse ++
                ((cellsOf (st.next + 1) (s₀ :: strs')).reverse ++
                  (st.next,
                    HCell.vecC ((List.range' (st.next + 1)
                      (s₀ :: strs').length).map some ++ [none])) ::
                    st.mem))⟩ then 1 else 0 := by
      intro a
      rw [hdtor, hcells, count_freeE_map]
      simp only [List.count_append, count_range', List.count_singleton',
        List.mem_cons, List.mem_append, List.mem_singleton,
        List.not_mem_nil, or_false, List.mem_range'_1, beq_iff_eq,
        AEvent.freeE.injEq]
      split_ifs <;> omega
    have hev : ∀ ev ∈ (SpawnOperationH.dtor
        ⟨some (st.next + (s₀ :: strs').length + env.length + 2), st.next,
          st.next + (s₀ :: strs').length + env.length + 1⟩
        ⟨st.next + (s₀ :: strs').length + env.length + 3,
          (st.next + (s₀ :: strs').length + env.length + 2,
            HCell.strC s₀) ::
            (st.next + (s₀ :: strs').length + env.length + 1,
              HCell.vecC ((List.range' (st.next + 1 + (s₀ :: strs').length)
                env.length).map some ++ [none])) ::
            ((cellsOf (st.next + 1 + (s₀ :: strs').length) env).reverse ++
              ((cellsOf (st.next + 1) (s₀ :: strs')).reverse ++
                (st.next,
                  HCell.vecC ((List.range' (st.next + 1)
                    (s₀ :: strs').length).map some ++ [none])) ::
                  st.mem))⟩).2, ∃ a, ev = AEvent.freeE a := by
      rw [hdtor]
      intro ev hev
      obtain ⟨a, ha, rfl⟩ := List.mem_map.mp hev
      exact ⟨a, rfl⟩
    refine ⟨_, _, ?_, ?_, hfresh, ?_, by simpa using hbegin,
      fun st2 h => beginArgs_frame _ _ _ h, hcount, hev⟩
    · rw [key]
    · rw [key]
    · intro p hp hmem
      have h1 := hwf.1 p hp
      have h2 := hfresh p.1 hmem
      omega

/-- Witness for C8: `spawn(["/bin/true"])` with a one-entry environment on
the empty heap. -/
theorem spawn_captures_deep_copies_check :
    ∃ st1 op,
      (Device.Spawn [JSValue.arr [JSValue.str "/bin/true"]] ["PATH=/bin"]
        ⟨0, []⟩).1 = st1 ∧
      (Device.Spawn [JSValue.arr [JSValue.str "/bin/true"]] ["PATH=/bin"]
        ⟨0, []⟩).2.2 = SpawnOutcome.scheduled op ∧
      (∀ a ∈ op.cells st1, (0 : ℕ) ≤ a) ∧
      (∀ p ∈ ([] : List (ℕ × HCell)), p.1 ∉ op.cells st1) ∧
      op.beginArgs st1 =
        ((["/bin/true"] : List String).head?, some ["/bin/true"],
          some ["PATH=/bin"]) ∧
      (∀ st2 : AllocST, (∀ a ∈ op.cells st1, st2.lookup a = st1.lookup a) →
        op.beginArgs st2 = op.beginArgs st1) ∧
      (∀ a : ℕ, ((op.dtor st1).2).count (.freeE a) =
        if a ∈ op.cells st1 then 1 else 0) ∧
      (∀ ev ∈ (op.dtor st1).2, ∃ a, ev = AEvent.freeE a) :=
  spawn_captures_deep_copies [JSValue.str "/bin/true"] ["/bin/true"] []
    ["PATH=/bin"] ⟨0, []⟩ ⟨by simp, by simp⟩ rfl

end Frida
